import Mathlib

/-
Verification of the cluster connectivity core of rethinkdb
(src/rpc/connectivity/cluster.hpp).

The repository provides the interface header; the run-time logic of
`run_t` and `connectivity_cluster_t` (the .cc file) is not part of the
source tree, so the behavioural definitions below are modelled from the
specification's words, while constants, inline member functions
(`is_loopback`, `variable_setter_t`) and declared exception sets are
embedded directly from the header.
-/

namespace Cluster

/-- Peer identifiers: opaque 128-bit values in the source (`peer_id_t`);
modelled as naturals. -/
abbrev PeerId := Nat

/-- An address (host:port set key, `peer_address_t`), modelled as an opaque
natural. -/
abbrev Address := Nat

/-- Identity of one `connection_t` object. -/
abbrev ConnId := Nat

/-- A worker thread index. -/
abbrev Worker := Nat

/-- Association-list lookup by key, first match wins (the `std::map`
lookup of the source, restricted to the keys we use). -/
def lookupKey {α : Type} (k : Nat) : List (Nat × α) → Option α
  | [] => none
  | e :: rest => if e.1 = k then some e.2 else lookupKey k rest

/-- Number of entries of an association list carrying a given key. -/
def countKey {α : Type} (k : Nat) : List (Nat × α) → Nat
  | [] => 0
  | e :: rest => (if e.1 = k then 1 else 0) + countKey k rest

theorem lookupKey_isSome_iff {α : Type} (k : Nat) (l : List (Nat × α)) :
    (lookupKey k l).isSome = true ↔ ∃ e ∈ l, e.1 = k := by
  induction l with
  | nil => simp [lookupKey]
  | cons e rest ih =>
    by_cases h : e.1 = k
    · simp [lookupKey, h]
    · simp [lookupKey, h, ih]

theorem lookupKey_eq_some_mem {α : Type} {k : Nat} {l : List (Nat × α)} {v : α}
    (h : lookupKey k l = some v) : (k, v) ∈ l := by
  induction l with
  | nil => simp [lookupKey] at h
  | cons e rest ih =>
    by_cases he : e.1 = k
    · simp [lookupKey, he] at h
      exact List.mem_cons.mpr (Or.inl (by cases e; simp_all))
    · simp [lookupKey, he] at h
      exact List.mem_cons_of_mem _ (ih h)

theorem countKey_eq_zero {α : Type} {k : Nat} {l : List (Nat × α)}
    (h : ∀ e ∈ l, e.1 ≠ k) : countKey k l = 0 := by
  induction l with
  | nil => rfl
  | cons e rest ih =>
    have h1 : e.1 ≠ k := h e (List.mem_cons_self e rest)
    simp [countKey, h1]
    exact ih fun x hx => h x (List.mem_cons_of_mem _ hx)

theorem lookupKey_filter_ne {α : Type} {q p : Nat} (hqp : q ≠ p)
    (l : List (Nat × α)) :
    lookupKey q (l.filter fun e => e.1 != p) = lookupKey q l := by
  induction l with
  | nil => rfl
  | cons e rest ih =>
    by_cases hep : e.1 = p
    · have heq : e.1 ≠ q := by intro h; exact hqp (h ▸ hep)
      have hf : (e :: rest).filter (fun x => x.1 != p)
          = rest.filter (fun x => x.1 != p) := by
        simp [List.filter_cons, hep]
      rw [hf, ih]
      simp [lookupKey, heq]
    · have hf : (e :: rest).filter (fun x => x.1 != p)
          = e :: rest.filter (fun x => x.1 != p) := by
        simp [List.filter_cons, bne_iff_ne, hep]
      rw [hf]
      by_cases heq : e.1 = q
      · simp [lookupKey, heq]
      · simp [lookupKey, heq, ih]

theorem lookupKey_cons_isSome {α : Type} {k : Nat} {l : List (Nat × α)}
    (q : Nat) (b : α) (h : (lookupKey k l).isSome = true) :
    (lookupKey k ((q, b) :: l)).isSome = true := by
  by_cases hq : q = k <;> simp [lookupKey, hq, h]

/-- The global state of one node's connectivity core: `run_t`'s routing
table and attempt table, the per-worker replicated connection maps
(`connectivity_cluster_t::connections`), the outstanding borrower locks
(`auto_drainer_t::lock_t` tokens), and the lifecycle sets of connections
that have been killed, whose drain signal has fired, and that have been
destroyed.  `dials` counts TCP dial attempts that were actually
launched. -/
structure ClusterState where
  routing : List (PeerId × Address)
  connMaps : List (List (PeerId × ConnId))
  attempts : List Address
  locks : List ConnId
  killed : List ConnId
  drained : List ConnId
  destroyed : List ConnId
  nextConn : ConnId
  dials : Nat
deriving DecidableEq, Repr

/-- Initial state of a run with `w` worker threads: empty routing table,
empty connection map on every worker, nothing in flight. -/
def init (w : Nat) : ClusterState :=
  { routing := [], connMaps := List.replicate w [], attempts := [],
    locks := [], killed := [], drained := [], destroyed := [],
    nextConn := 0, dials := 0 }

/-- Modelled from the spec (the body of `run_t::join` is not in the source
tree): an address already present in the attempt table suppresses the
dial; otherwise the address is added to the attempt table and one dial is
launched. -/
def join (a : Address) (s : ClusterState) : ClusterState :=
  if a ∈ s.attempts then s
  else { s with attempts := a :: s.attempts, dials := s.dials + 1 }

/-- Modelled from the spec (the body of
`run_t::get_routing_table_to_send_and_add_peer` and the subsequent
registration in `run_t::handle` are not in the source tree): under
`new_connection_mutex`, try to insert `(other_peer_id, other_peer_addr)`
into the routing table.  If an entry for that peer already exists this
side loses the race: it reports failure and changes nothing (stream
closed, no registration, no publication).  On success the routing entry
is added and a fresh connection is published into every worker's
connection map. -/
def handshakeCommit (p : PeerId) (a : Address) (s : ClusterState) :
    Bool × ClusterState :=
  if (lookupKey p s.routing).isSome then (false, s)
  else (true,
    { s with
      routing := (p, a) :: s.routing,
      connMaps := s.connMaps.map (fun m => (p, s.nextConn) :: m),
      nextConn := s.nextConn + 1 })

/-- The connection map of worker `w` (empty when the worker index is out
of range). -/
def workerMap (w : Worker) (s : ClusterState) : List (PeerId × ConnId) :=
  (s.connMaps.get? w).getD []

/-- Modelled from the spec (the body of
`connectivity_cluster_t::get_connection` is not in the source tree): look
the peer up in the calling worker's connection map; on a hit, return the
connection and record a new borrower lock on it. -/
def get_connection (w : Worker) (p : PeerId) (s : ClusterState) :
    Option ConnId × ClusterState :=
  match lookupKey p (workerMap w s) with
  | some c => (some c, { s with locks := c :: s.locks })
  | none => (none, s)

/-- Release one borrower lock on a connection. -/
def releaseLock (c : ConnId) (s : ClusterState) : ClusterState :=
  { s with locks := s.locks.erase c }

/-- Modelled from the spec (the body of `connection_t::kill_connection`
is not in the source tree): dropping the connection closes its stream,
which triggers teardown; killing an already-killed connection changes
nothing.  `kill_connection` is a method of a `connection_t`, so only a
connection id that has been allocated can be killed. -/
def kill_connection (c : ConnId) (s : ClusterState) : ClusterState :=
  if c < s.nextConn ∧ c ∉ s.killed then { s with killed := c :: s.killed }
  else s

/-- Modelled from the spec: during teardown the connection's entry is
removed from every worker's connection map before the connection is
dropped. -/
def unpublish (c : ConnId) (s : ClusterState) : ClusterState :=
  { s with connMaps := s.connMaps.map (fun m => m.filter fun e => e.2 != c) }

/-- The connection is present in some worker's connection map. -/
def connInMaps (c : ConnId) (s : ClusterState) : Prop :=
  ∃ m ∈ s.connMaps, ∃ e ∈ m, e.2 = c

instance (c : ConnId) (s : ClusterState) : Decidable (connInMaps c s) :=
  decidable_of_iff (∃ m ∈ s.connMaps, ∃ e ∈ m, e.2 = c) Iff.rfl

/-- The peer is present in some worker's connection map. -/
def peerInMaps (p : PeerId) (s : ClusterState) : Prop :=
  ∃ m ∈ s.connMaps, ∃ e ∈ m, e.1 = p

instance (p : PeerId) (s : ClusterState) : Decidable (peerInMaps p s) :=
  decidable_of_iff (∃ m ∈ s.connMaps, ∃ e ∈ m, e.1 = p) Iff.rfl

/-- Modelled from the spec: the drain signal of a killed connection fires
once the connection is out of every worker's map and every borrower lock
has been released; it is a one-shot event. -/
def fireDrain (c : ConnId) (s : ClusterState) : ClusterState :=
  if c ∈ s.killed ∧ c ∉ s.locks ∧ ¬ connInMaps c s ∧ c ∉ s.drained then
    { s with drained := c :: s.drained }
  else s

/-- Modelled from the spec: a connection object is destroyed only after
its drain signal has fired and no borrower lock remains. -/
def destroyConn (c : ConnId) (s : ClusterState) : ClusterState :=
  if c ∈ s.drained ∧ c ∉ s.locks ∧ c ∉ s.destroyed then
    { s with destroyed := c :: s.destroyed }
  else s

/-- Modelled from the spec: the routing-table entry sentry is destroyed at
the end of `handle`, after the connection has been removed from every
worker's map. -/
def removeRouting (p : PeerId) (s : ClusterState) : ClusterState :=
  if peerInMaps p s then s
  else { s with routing := s.routing.filter fun e => e.1 != p }

/-- One operation of the connectivity core. -/
inductive Op where
  | join (a : Address)
  | commit (p : PeerId) (a : Address)
  | getConn (w : Worker) (p : PeerId)
  | release (c : ConnId)
  | kill (c : ConnId)
  | unpublish (c : ConnId)
  | drain (c : ConnId)
  | destroy (c : ConnId)
  | removeRouting (p : PeerId)
deriving DecidableEq, Repr

/-- Interleaved execution of the core's operations, one at a time (the
mutexes of the source serialize them). -/
def step (s : ClusterState) : Op → ClusterState
  | .join a => join a s
  | .commit p a => (handshakeCommit p a s).2
  | .getConn w p => (get_connection w p s).2
  | .release c => releaseLock c s
  | .kill c => kill_connection c s
  | .unpublish c => unpublish c s
  | .drain c => fireDrain c s
  | .destroy c => destroyConn c s
  | .removeRouting p => removeRouting p s

/-- Run a trace of operations from the initial state of a `w`-worker
node. -/
def run (w : Nat) (ops : List Op) : ClusterState :=
  ops.foldl step (init w)

/-- Every connection id the state refers to has been allocated. -/
def Fresh (s : ClusterState) : Prop :=
  (∀ m ∈ s.connMaps, ∀ e ∈ m, e.2 < s.nextConn) ∧
  (∀ c ∈ s.locks, c < s.nextConn) ∧
  (∀ c ∈ s.killed, c < s.nextConn) ∧
  (∀ c ∈ s.drained, c < s.nextConn) ∧
  (∀ c ∈ s.destroyed, c < s.nextConn)

/-- Every connection published in a worker's map is live: its drain
signal has not fired and it has not been destroyed (spec invariant 2). -/
def MapsLive (s : ClusterState) : Prop :=
  ∀ m ∈ s.connMaps, ∀ e ∈ m, e.2 ∉ s.drained ∧ e.2 ∉ s.destroyed

/-- Every connection with an outstanding borrower lock is live: its drain
signal has not fired and it has not been destroyed. -/
def LocksLive (s : ClusterState) : Prop :=
  ∀ c ∈ s.locks, c ∉ s.drained ∧ c ∉ s.destroyed

/-- Every peer published in a worker's connection map has a routing-table
entry (spec: the connection map is a subset of the routing table). -/
def RoutingSuperset (s : ClusterState) : Prop :=
  ∀ m ∈ s.connMaps, ∀ e ∈ m, (lookupKey e.1 s.routing).isSome = true

/-- The combined state invariant of the connectivity core. -/
def Inv (s : ClusterState) : Prop :=
  Fresh s ∧ MapsLive s ∧ LocksLive s ∧ RoutingSuperset s

theorem inv_init (w : Nat) : Inv (init w) := by
  refine ⟨⟨?_, ?_, ?_, ?_, ?_⟩, ?_, ?_, ?_⟩ <;>
    intro m hm <;>
    first
      | exact absurd hm (List.not_mem_nil m)
      | (intro e he
         rw [List.eq_of_mem_replicate hm] at he
         exact absurd he (List.not_mem_nil e))

theorem inv_join {s : ClusterState} (a : Address) (h : Inv s) :
    Inv (join a s) := by
  unfold join
  split <;> exact h

theorem inv_commit {s : ClusterState} (p : PeerId) (a : Address)
    (h : Inv s) : Inv (handshakeCommit p a s).2 := by
  obtain ⟨⟨hFm, hFl, hFk, hFd, hFx⟩, hM, hL, hR⟩ := h
  unfold handshakeCommit
  split
  · exact ⟨⟨hFm, hFl, hFk, hFd, hFx⟩, hM, hL, hR⟩
  · refine ⟨⟨?_, ?_, ?_, ?_, ?_⟩, ?_, ?_, ?_⟩
    · intro m hm e he
      obtain ⟨m0, hm0, rfl⟩ := List.mem_map.mp hm
      rcases List.mem_cons.mp he with he | he
      · rw [he]
        exact Nat.lt_succ_self _
      · exact Nat.lt_succ_of_lt (hFm m0 hm0 e he)
    · exact fun c hc => Nat.lt_succ_of_lt (hFl c hc)
    · exact fun c hc => Nat.lt_succ_of_lt (hFk c hc)
    · exact fun c hc => Nat.lt_succ_of_lt (hFd c hc)
    · exact fun c hc => Nat.lt_succ_of_lt (hFx c hc)
    · intro m hm e he
      obtain ⟨m0, hm0, rfl⟩ := List.mem_map.mp hm
      rcases List.mem_cons.mp he with he | he
      · rw [he]
        exact ⟨fun hmem => Nat.lt_irrefl _ (hFd _ hmem),
               fun hmem => Nat.lt_irrefl _ (hFx _ hmem)⟩
      · exact hM m0 hm0 e he
    · exact hL
    · intro m hm e he
      obtain ⟨m0, hm0, rfl⟩ := List.mem_map.mp hm
      rcases List.mem_cons.mp he with he | he
      · rw [he]
        simp [lookupKey]
      · exact lookupKey_cons_isSome p a (hR m0 hm0 e he)

theorem workerMap_sub {s : ClusterState} {w : Worker} {e : PeerId × ConnId}
    (he : e ∈ workerMap w s) : ∃ m ∈ s.connMaps, e ∈ m := by
  unfold workerMap at he
  cases hg : s.connMaps.get? w with
  | none => rw [hg] at he; exact absurd he (List.not_mem_nil e)
  | some m =>
    rw [hg] at he
    exact ⟨m, List.get?_mem hg, he⟩

theorem inv_getConn {s : ClusterState} (w : Worker) (p : PeerId)
    (h : Inv s) : Inv (get_connection w p s).2 := by
  obtain ⟨⟨hFm, hFl, hFk, hFd, hFx⟩, hM, hL, hR⟩ := h
  unfold get_connection
  cases hlk : lookupKey p (workerMap w s) with
  | none => exact ⟨⟨hFm, hFl, hFk, hFd, hFx⟩, hM, hL, hR⟩
  | some c =>
    obtain ⟨m, hm, hcm⟩ := workerMap_sub (lookupKey_eq_some_mem hlk)
    refine ⟨⟨hFm, ?_, hFk, hFd, hFx⟩, hM, ?_, hR⟩
    · intro x hx
      rcases List.mem_cons.mp hx with hx | hx
      · rw [hx]
        exact hFm m hm (p, c) hcm
      · exact hFl x hx
    · intro x hx
      rcases List.mem_cons.mp hx with hx | hx
      · rw [hx]
        exact hM m hm (p, c) hcm
      · exact hL x hx

theorem inv_release {s : ClusterState} (c : ConnId) (h : Inv s) :
    Inv (releaseLock c s) := by
  obtain ⟨⟨hFm, hFl, hFk, hFd, hFx⟩, hM, hL, hR⟩ := h
  exact ⟨⟨hFm, fun x hx => hFl x (List.mem_of_mem_erase hx), hFk, hFd, hFx⟩,
         hM, fun x hx => hL x (List.mem_of_mem_erase hx), hR⟩

theorem inv_kill {s : ClusterState} (c : ConnId) (h : Inv s) :
    Inv (kill_connection c s) := by
  obtain ⟨⟨hFm, hFl, hFk, hFd, hFx⟩, hM, hL, hR⟩ := h
  unfold kill_connection
  split
  · next hc =>
    refine ⟨⟨hFm, hFl, ?_, hFd, hFx⟩, hM, hL, hR⟩
    intro x hx
    rcases List.mem_cons.mp hx with hx | hx
    · rw [hx]; exact hc.1
    · exact hFk x hx
  · exact ⟨⟨hFm, hFl, hFk, hFd, hFx⟩, hM, hL, hR⟩

theorem inv_unpublish {s : ClusterState} (c : ConnId) (h : Inv s) :
    Inv (unpublish c s) := by
  obtain ⟨⟨hFm, hFl, hFk, hFd, hFx⟩, hM, hL, hR⟩ := h
  refine ⟨⟨?_, hFl, hFk, hFd, hFx⟩, ?_, hL, ?_⟩ <;>
    (intro m hm e he
     obtain ⟨m0, hm0, rfl⟩ := List.mem_map.mp hm
     have he0 := (List.mem_filter.mp he).1)
  · exact hFm m0 hm0 e he0
  · exact hM m0 hm0 e he0
  · exact hR m0 hm0 e he0

theorem not_connInMaps_iff {c : ConnId} {s : ClusterState} :
    ¬ connInMaps c s ↔ ∀ m ∈ s.connMaps, ∀ e ∈ m, e.2 ≠ c := by
  unfold connInMaps
  push_neg
  rfl

theorem inv_drain {s : ClusterState} (c : ConnId) (h : Inv s) :
    Inv (fireDrain c s) := by
  obtain ⟨⟨hFm, hFl, hFk, hFd, hFx⟩, hM, hL, hR⟩ := h
  unfold fireDrain
  split
  · next hc =>
    obtain ⟨hck, hcl, hcm, _⟩ := hc
    have hcm2 := not_connInMaps_iff.mp hcm
    refine ⟨⟨hFm, hFl, hFk, ?_, hFx⟩, ?_, ?_, hR⟩
    · intro x hx
      rcases List.mem_cons.mp hx with hx | hx
      · rw [hx]; exact hFk c hck
      · exact hFd x hx
    · intro m hm e he
      refine ⟨?_, (hM m hm e he).2⟩
      intro hmem
      rcases List.mem_cons.mp hmem with hx | hx
      · exact hcm2 m hm e he hx
      · exact (hM m hm e he).1 hx
    · intro x hx
      refine ⟨?_, (hL x hx).2⟩
      intro hmem
      rcases List.mem_cons.mp hmem with h2 | h2
      · rw [h2] at hx; exact hcl hx
      · exact (hL x hx).1 h2
  · exact ⟨⟨hFm, hFl, hFk, hFd, hFx⟩, hM, hL, hR⟩

theorem inv_destroy {s : ClusterState} (c : ConnId) (h : Inv s) :
    Inv (destroyConn c s) := by
  obtain ⟨⟨hFm, hFl, hFk, hFd, hFx⟩, hM, hL, hR⟩ := h
  unfold destroyConn
  split
  · next hc =>
    obtain ⟨hcd, hcl, _⟩ := hc
    refine ⟨⟨hFm, hFl, hFk, hFd, ?_⟩, ?_, ?_, hR⟩
    · intro x hx
      rcases List.mem_cons.mp hx with hx | hx
      · rw [hx]; exact hFd c hcd
      · exact hFx x hx
    · intro m hm e he
      refine ⟨(hM m hm e he).1, ?_⟩
      intro hmem
      rcases List.mem_cons.mp hmem with hx | hx
      · exact (hM m hm e he).1 (hx ▸ hcd)
      · exact (hM m hm e he).2 hx
    · intro x hx
      refine ⟨(hL x hx).1, ?_⟩
      intro hmem
      rcases List.mem_cons.mp hmem with h2 | h2
      · rw [h2] at hx; exact hcl hx
      · exact (hL x hx).2 h2
  · exact ⟨⟨hFm, hFl, hFk, hFd, hFx⟩, hM, hL, hR⟩

theorem not_peerInMaps_iff {p : PeerId} {s : ClusterState} :
    ¬ peerInMaps p s ↔ ∀ m ∈ s.connMaps, ∀ e ∈ m, e.1 ≠ p := by
  unfold peerInMaps
  push_neg
  rfl

theorem inv_removeRouting {s : ClusterState} (p : PeerId) (h : Inv s) :
    Inv (removeRouting p s) := by
  obtain ⟨hF, hM, hL, hR⟩ := h
  unfold removeRouting
  split
  · exact ⟨hF, hM, hL, hR⟩
  · next hp =>
    have hp2 := not_peerInMaps_iff.mp hp
    refine ⟨hF, hM, hL, ?_⟩
    intro m hm e he
    rw [lookupKey_filter_ne (hp2 m hm e he)]
    exact hR m hm e he

theorem inv_step {s : ClusterState} (op : Op) (h : Inv s) :
    Inv (step s op) := by
  cases op with
  | join a => exact inv_join a h
  | commit p a => exact inv_commit p a h
  | getConn w p => exact inv_getConn w p h
  | release c => exact inv_release c h
  | kill c => exact inv_kill c h
  | unpublish c => exact inv_unpublish c h
  | drain c => exact inv_drain c h
  | destroy c => exact inv_destroy c h
  | removeRouting p => exact inv_removeRouting p h

theorem inv_foldl {s : ClusterState} (ops : List Op) (h : Inv s) :
    Inv (ops.foldl step s) := by
  induction ops generalizing s with
  | nil => exact h
  | cons op rest ih => exact ih (inv_step op h)

theorem inv_run (w : Nat) (ops : List Op) : Inv (run w ops) :=
  inv_foldl ops (inv_init w)

/-- Iterated `kill_connection` on the same connection. -/
def killN (c : ConnId) : Nat → ClusterState → ClusterState
  | 0, s => s
  | n + 1, s => kill_connection c (killN c n s)

theorem kill_connection_idem (c : ConnId) (s : ClusterState) :
    kill_connection c (kill_connection c s) = kill_connection c s := by
  by_cases h : c < s.nextConn ∧ c ∉ s.killed
  · have h1 : kill_connection c s = { s with killed := c :: s.killed } := by
      unfold kill_connection
      rw [if_pos h]
    rw [h1]
    unfold kill_connection
    rw [if_neg]
    intro h2
    exact h2.2 (List.mem_cons_self c s.killed)
  · have h1 : kill_connection c s = s := by
      unfold kill_connection
      rw [if_neg h]
    rw [h1, h1]

theorem killN_succ_eq (c : ConnId) (n : Nat) (s : ClusterState) :
    killN c (n + 1) s = kill_connection c s := by
  induction n with
  | zero => rfl
  | succ n ih =>
    show kill_connection c (killN c (n + 1) s) = kill_connection c s
    rw [ih, kill_connection_idem]

/-- Number of times the drain signal of connection `c` fires along a
trace of operations started in state `s`: a firing is a step at which `c`
newly enters the drained set. -/
def fireCount (c : ConnId) (s : ClusterState) : List Op → Nat
  | [] => 0
  | op :: rest =>
    (if c ∉ s.drained ∧ c ∈ (step s op).drained then 1 else 0) +
      fireCount c (step s op) rest

theorem drained_mono {c : ConnId} {s : ClusterState} (op : Op)
    (h : c ∈ s.drained) : c ∈ (step s op).drained := by
  cases op with
  | join a =>
    simp only [step, join]
    split <;> exact h
  | commit p a =>
    simp only [step, handshakeCommit]
    split <;> exact h
  | getConn w p =>
    simp only [step, get_connection]
    split <;> exact h
  | release c2 => exact h
  | kill c2 =>
    simp only [step, kill_connection]
    split <;> exact h
  | unpublish c2 => exact h
  | drain c2 =>
    simp only [step, fireDrain]
    split
    · exact List.mem_cons_of_mem _ h
    · exact h
  | destroy c2 =>
    simp only [step, destroyConn]
    split <;> exact h
  | removeRouting p =>
    simp only [step, removeRouting]
    split <;> exact h

theorem fireCount_of_mem {c : ConnId} {s : ClusterState} (ops : List Op)
    (h : c ∈ s.drained) : fireCount c s ops = 0 := by
  induction ops generalizing s with
  | nil => rfl
  | cons op rest ih =>
    unfold fireCount
    rw [if_neg fun h2 => h2.1 h, ih (drained_mono op h)]

theorem fireCount_le_one (c : ConnId) (s : ClusterState) (ops : List Op) :
    fireCount c s ops ≤ 1 := by
  induction ops generalizing s with
  | nil => exact Nat.zero_le 1
  | cons op rest ih =>
    unfold fireCount
    by_cases h : c ∉ s.drained ∧ c ∈ (step s op).drained
    · rw [if_pos h, fireCount_of_mem rest h.2]
    · rw [if_neg h, Nat.zero_add]
      exact ih _

theorem drain_requires {s : ClusterState} {op : Op} {c : ConnId}
    (h1 : c ∉ s.drained) (h2 : c ∈ (step s op).drained) :
    c ∈ s.killed ∧ c ∉ s.locks ∧ ¬ connInMaps c s := by
  cases op with
  | join a =>
    simp only [step, join] at h2
    split at h2 <;> exact absurd h2 h1
  | commit p a =>
    simp only [step, handshakeCommit] at h2
    split at h2 <;> exact absurd h2 h1
  | getConn w p =>
    simp only [step, get_connection] at h2
    split at h2 <;> exact absurd h2 h1
  | release c2 => exact absurd h2 h1
  | kill c2 =>
    simp only [step, kill_connection] at h2
    split at h2 <;> exact absurd h2 h1
  | unpublish c2 => exact absurd h2 h1
  | drain c2 =>
    simp only [step, fireDrain] at h2
    split at h2
    · rename_i hc
      rcases List.mem_cons.mp h2 with hx | hx
      · rw [hx]
        exact ⟨hc.1, hc.2.1, hc.2.2.1⟩
      · exact absurd hx h1
    · exact absurd h2 h1
  | destroy c2 =>
    simp only [step, destroyConn] at h2
    split at h2 <;> exact absurd h2 h1
  | removeRouting p =>
    simp only [step, removeRouting] at h2
    split at h2 <;> exact absurd h2 h1

/-- Bytes (payloads, frames) are modelled as lists of naturals. -/
abbrev Bytes := List Nat

/-- A one-byte message tag; `message_tag_t` is `uint8_t` in the header. -/
abbrev Tag := Fin 256

/-- `connectivity_cluster_t::max_message_tag` from the header. -/
def max_message_tag : Nat := 256

/-- `connectivity_cluster_t::heartbeat_tag` from the header: the tag
reserved exclusively for heartbeat messages is the character H. -/
def heartbeat_tag : Tag := ⟨Char.toNat 'H', by decide⟩

/-- The writer callback of `send_message`
(`cluster_send_message_write_callback_t::write`): given the negotiated
cluster version it produces the payload bytes. -/
structure WriteCallback where
  write : Nat → Bytes

/-- A message handler (`cluster_message_handler_t`): `on_message` handles
a message arriving from the network, `on_local_message` is the local
fast path; `α` is the abstract type of handler results. -/
structure MsgHandler (α : Type) where
  on_message : Bytes → α
  on_local_message : Bytes → α

/-- The handler table
(`cluster_message_handler_t *message_handlers[max_message_tag]`): a fixed
array with one slot per tag value, each holding at most one handler. -/
def HandlerTable (α : Type) : Type := Tag → Option (MsgHandler α)

/-- A `connection_t` as seen by the send path: its peer id, peer address,
and its `conn` stream pointer, which is NULL (`none`) for the loopback
connection. -/
structure Conn where
  peer_id : PeerId
  peer_address : Address
  stream : Option Nat
deriving DecidableEq, Repr

/-- `connection_t::is_loopback` from the header: true iff `conn == NULL`. -/
def Conn.is_loopback (c : Conn) : Bool := c.stream.isNone

/-- `connection_t::get_peer_id` from the header. -/
def Conn.get_peer_id (c : Conn) : PeerId := c.peer_id

/-- `connection_t::get_peer_address` from the header. -/
def Conn.get_peer_address (c : Conn) : Address := c.peer_address

/-- Variable-length encoding of the payload length; the spec's frame
layout is tag byte, varint length, payload. -/
def varint (n : Nat) : Bytes :=
  if h : n < 128 then [n]
  else (n % 128 + 128) :: varint (n / 128)
decreasing_by
  exact Nat.div_lt_self
    (Nat.lt_of_lt_of_le (by decide) (Nat.le_of_not_lt h)) (by decide)

/-- The observable effect of one `send_message` call: either a local
fast-path delivery on a worker, or a framed write to the peer's socket. -/
inductive SendEvent where
  | localDelivery (tag : Tag) (w : Worker) (payload : Bytes)
  | wireWrite (frame : Bytes)
deriving DecidableEq, Repr

/-- The bytes a send event puts on a socket. -/
def socketBytes : SendEvent → Bytes
  | .localDelivery _ _ _ => []
  | .wireWrite f => f

/-- Modelled from the spec (the body of
`connectivity_cluster_t::send_message` is not in the source tree): on the
loopback connection the writer runs against an in-memory buffer and its
output is handed to the local fast path on the calling worker; on a real
connection a frame is written to the socket. -/
def send_message (version : Nat) (caller : Worker) (c : Conn) (tag : Tag)
    (cb : WriteCallback) : SendEvent :=
  match c.stream with
  | none => .localDelivery tag caller (cb.write version)
  | some _ =>
      .wireWrite (tag.val :: varint (cb.write version).length
        ++ cb.write version)

/-- Modelled from the spec: delivering a local fast-path event invokes
the registered handler's `on_local_message` with the payload. -/
def deliverLocal {α : Type} (ht : HandlerTable α) (tag : Tag)
    (payload : Bytes) : Option α :=
  (ht tag).map fun h => h.on_local_message payload

/-- Modelled from the spec (the registering constructor of
`cluster_message_handler_t` is not in the source tree): a handler can be
registered only on a free slot of the handler table. -/
def registerHandler {α : Type} (ht : HandlerTable α) (tag : Tag)
    (h : MsgHandler α) : Option (HandlerTable α) :=
  match ht tag with
  | some _ => none
  | none => some fun t => if t = tag then some h else ht t

/-- Modelled from the spec (upper-layer API, register_handler of the
spec): the heartbeat tag is reserved, an upper-layer handler cannot be
registered on it. -/
def registerUserHandler {α : Type} (ht : HandlerTable α) (tag : Tag)
    (h : MsgHandler α) : Option (HandlerTable α) :=
  if tag = heartbeat_tag then none else registerHandler ht tag h

/-- The two exceptions `run_t::run_t` is declared to throw in the header:
`THROWS_ONLY(address_in_use_exc_t, tcp_socket_exc_t)`. -/
inductive RunError where
  | address_in_use
  | tcp_socket
deriving DecidableEq, Repr

/-- Run construction parameters from the header: local addresses,
canonical addresses, cluster port, client port. -/
structure RunConfig where
  local_addresses : List Address
  canonical_addresses : List Address
  port : Nat
  client_port : Nat
deriving DecidableEq, Repr

/-- Modelled from the spec (the body of `run_t::run_t` is not in the
source tree): construction binds the listener socket; a port already in
use fails with `address_in_use`, a socket-layer failure fails with
`tcp_socket`, otherwise the run starts and listens on the port. -/
def runConstruct (cfg : RunConfig) (portsInUse : List Nat)
    (socketOk : Bool) : Except RunError Nat :=
  if cfg.port ∈ portsInUse then .error .address_in_use
  else if socketOk then .ok cfg.port
  else .error .tcp_socket

/-- Modelled from the spec: every per-connection error is recovered
locally by tearing down that single connection (kill it, then remove it
from every worker's map); the handler returns a state and surfaces no
error. -/
def connErrorTeardown (c : ConnId) (s : ClusterState) : ClusterState :=
  unpublish c (kill_connection c s)

/-- Modelled from the header's documented threading contract: a node with
its home thread, its core state and the queue of background dial tasks
spawned by `join`. -/
structure ThreadedNode where
  homeThread : Nat
  state : ClusterState
  pendingDials : List Address
deriving DecidableEq, Repr

/-- Modelled from the header comment on `run_t::join` ("May only be
called on home thread. Returns immediately (it does its work in the
background)."): a call from any other thread violates the precondition;
a call from the home thread queues the dial and returns at once, without
touching the core state. -/
def joinFromThread (t : Nat) (a : Address) (n : ThreadedNode) :
    Option ThreadedNode :=
  if t = n.homeThread then
    some { n with pendingDials := a :: n.pendingDials }
  else none

/-- A queued background dial later performs the work of `join`. -/
def backgroundDialStep (n : ThreadedNode) : ThreadedNode :=
  match n.pendingDials with
  | [] => n
  | a :: rest => { n with pendingDials := rest, state := join a n.state }

/-- Modelled from the header comment on `connection_t` ("completely
thread-safe. You can pass connections from thread to thread and call the
methods on any thread."): the accessor succeeds from every calling
thread. -/
def getPeerIdFromThread (_t : Nat) (c : Conn) : Option PeerId :=
  some c.get_peer_id

/-- Modelled from the header: `send_message` may be called from any
thread. -/
def sendMessageFromThread (t : Nat) (version : Nat) (c : Conn) (tag : Tag)
    (cb : WriteCallback) : Option SendEvent :=
  some (send_message version t c tag cb)

/-- The constructor of `run_t::variable_setter_t`, embedded from the
header: `guarantee(*variable == NULL); *variable = value;`.  The input is
the current value of the variable, the output its new value, `none` when
the guarantee fails.  `run_t` instantiates it as
`register_us_with_parent` on `parent->current_run`. -/
def variableSetterCtor (var : Option Nat) (val : Nat) :
    Option (Option Nat) :=
  match var with
  | none => some (some val)
  | some _ => none

/-- The destructor of `run_t::variable_setter_t`, embedded from the
header: `guarantee(*variable == value); *variable = NULL;`. -/
def variableSetterDtor (var : Option Nat) (val : Nat) :
    Option (Option Nat) :=
  if var = some val then some none else none

/-- Iterated `join` of the same address. -/
def joinN (a : Address) : Nat → ClusterState → ClusterState
  | 0, s => s
  | n + 1, s => join a (joinN a n s)

theorem join_suppress {a : Address} {s : ClusterState}
    (h : a ∈ s.attempts) : join a s = s := by
  unfold join
  rw [if_pos h]

theorem join_mem_attempts (a : Address) (s : ClusterState) :
    a ∈ (join a s).attempts := by
  unfold join
  split
  · next h => exact h
  · exact List.mem_cons_self _ _

theorem join_idem (a : Address) (s : ClusterState) :
    join a (join a s) = join a s :=
  join_suppress (join_mem_attempts a s)

theorem joinN_succ_eq (a : Address) (n : Nat) (s : ClusterState) :
    joinN a (n + 1) s = join a s := by
  induction n with
  | zero => rfl
  | succ n ih =>
    show join a (joinN a (n + 1) s) = join a s
    rw [ih, join_idem]

theorem handshakeCommit_lose {p : PeerId} {a : Address} {s : ClusterState}
    (h : (lookupKey p s.routing).isSome = true) :
    handshakeCommit p a s = (false, s) := by
  unfold handshakeCommit
  rw [if_pos h]

theorem handshakeCommit_win {p : PeerId} {a : Address} {s : ClusterState}
    (h : lookupKey p s.routing = none) :
    handshakeCommit p a s = (true,
      { s with
        routing := (p, a) :: s.routing,
        connMaps := s.connMaps.map (fun m => (p, s.nextConn) :: m),
        nextConn := s.nextConn + 1 }) := by
  have hns : ¬ (lookupKey p s.routing).isSome = true := by
    rw [h]
    simp
  unfold handshakeCommit
  rw [if_neg hns]

/-- A concrete handler, used to instantiate the dispatch theorems. -/
def demoHandler : MsgHandler Nat :=
  ⟨fun b => b.length, fun b => b.length + 1⟩

/-- A concrete handler table with `demoHandler` on tag 5. -/
def demoTable : HandlerTable Nat :=
  fun t => if t = ⟨5, by decide⟩ then some demoHandler else none

/-- Claim C1: when two peers dial each other simultaneously, the
handshake that commits second under `new_connection_mutex` loses: if the
routing table already holds an entry for the peer, the commit reports
failure and leaves the state untouched (no registration, no publication
into any worker's connection map), and after the two serialized commits
exactly one connection for that peer survives in every worker's map. -/
theorem C1_race_resolution :
    (∀ (p : PeerId) (a : Address) (s : ClusterState),
      (lookupKey p s.routing).isSome = true →
      handshakeCommit p a s = (false, s)) ∧
    (∀ (w : Nat) (ops : List Op) (p : PeerId) (a1 a2 : Address)
      (b1 : Bool) (s1 : ClusterState) (b2 : Bool) (s2 : ClusterState),
      lookupKey p (run w ops).routing = none →
      handshakeCommit p a1 (run w ops) = (b1, s1) →
      handshakeCommit p a2 s1 = (b2, s2) →
      b1 = true ∧ b2 = false ∧ s2 = s1 ∧
        ∀ m ∈ s2.connMaps, countKey p m = 1) := by
  constructor
  · intro p a s h
    exact handshakeCommit_lose h
  · intro w ops p a1 a2 b1 s1 b2 s2 hnone hc1 hc2
    obtain ⟨_, _, _, hR⟩ := inv_run w ops
    rw [handshakeCommit_win hnone] at hc1
    injection hc1 with hb1 hs1
    subst hs1
    subst hb1
    have hsome : (lookupKey p
        ({ run w ops with
          routing := (p, a1) :: (run w ops).routing,
          connMaps := (run w ops).connMaps.map
            (fun m => (p, (run w ops).nextConn) :: m),
          nextConn := (run w ops).nextConn + 1 } : ClusterState).routing).isSome
        = true := by
      simp [lookupKey]
    rw [handshakeCommit_lose hsome] at hc2
    injection hc2 with hb2 hs2
    subst hs2
    subst hb2
    refine ⟨rfl, rfl, rfl, ?_⟩
    intro m hm
    obtain ⟨m0, hm0, rfl⟩ := List.mem_map.mp hm
    have hz : countKey p m0 = 0 := by
      apply countKey_eq_zero
      intro e he hep
      have hsup := hR m0 hm0 e he
      rw [hep, hnone] at hsup
      simp at hsup
    simp [countKey, hz]

/-- Witness for C1 at a concrete run. -/
theorem C1_witness :
    true = true ∧ false = false ∧
    (handshakeCommit 0 2 (handshakeCommit 0 1 (run 1 [])).2).2
      = (handshakeCommit 0 1 (run 1 [])).2 ∧
    ∀ m ∈ (handshakeCommit 0 2 (handshakeCommit 0 1 (run 1 [])).2).2.connMaps,
      countKey 0 m = 1 := by
  have h := C1_race_resolution.2 1 [] 0 1 2
    (handshakeCommit 0 1 (run 1 [])).1 (handshakeCommit 0 1 (run 1 [])).2
    (handshakeCommit 0 2 (handshakeCommit 0 1 (run 1 [])).2).1
    (handshakeCommit 0 2 (handshakeCommit 0 1 (run 1 [])).2).2
    (by decide) rfl rfl
  exact ⟨rfl, rfl, h.2.2.1, h.2.2.2⟩

/-- Claim C2: killing a connection N ≥ 1 times equals killing it once;
along any trace the drain signal fires at most once (and there is a
trace on which it fires exactly once), and it can fire only on a
connection whose stream has been closed by kill, that is out of every
worker's map, and whose borrower locks have all been released. -/
theorem C2_kill_idempotent_drain_once :
    (∀ (c : ConnId) (n : Nat) (s : ClusterState), 1 ≤ n →
      killN c n s = killN c 1 s) ∧
    (∀ (c : ConnId) (s : ClusterState) (ops : List Op),
      fireCount c s ops ≤ 1) ∧
    (∀ (s : ClusterState) (op : Op) (c : ConnId),
      c ∉ s.drained → c ∈ (step s op).drained →
      c ∈ s.killed ∧ c ∉ s.locks ∧ ¬ connInMaps c s) ∧
    fireCount 0 (run 1 [Op.commit 0 5, Op.kill 0, Op.unpublish 0])
      [Op.drain 0, Op.drain 0] = 1 := by
  refine ⟨?_, fireCount_le_one, ?_, by decide⟩
  · intro c n s hn
    match n, hn with
    | n + 1, _ => rw [killN_succ_eq]; rfl
  · intro s op c h1 h2
    exact drain_requires h1 h2

/-- Witness for C2 at concrete inputs. -/
theorem C2_witness :
    killN 0 2 (run 1 [Op.commit 0 5]) = killN 0 1 (run 1 [Op.commit 0 5]) ∧
    (0 ∈ (run 1 [Op.commit 0 5, Op.kill 0, Op.unpublish 0]).killed ∧
     0 ∉ (run 1 [Op.commit 0 5, Op.kill 0, Op.unpublish 0]).locks ∧
     ¬ connInMaps 0 (run 1 [Op.commit 0 5, Op.kill 0, Op.unpublish 0])) :=
  ⟨C2_kill_idempotent_drain_once.1 0 2 (run 1 [Op.commit 0 5]) (by decide),
   C2_kill_idempotent_drain_once.2.2.1
     (run 1 [Op.commit 0 5, Op.kill 0, Op.unpublish 0]) (Op.drain 0) 0
     (by decide) (by decide)⟩

/-- Claim C3: `get_connection` returns either nothing (leaving the state
unchanged) or a connection together with a freshly recorded borrower
lock; and in every reachable state a connection with an outstanding
borrower lock has not been destroyed and its drain signal has not
fired. -/
theorem C3_get_connection_locking :
    (∀ (w : Worker) (p : PeerId) (s : ClusterState),
      get_connection w p s = (none, s) ∨
      ∃ c, (get_connection w p s).1 = some c ∧
        c ∈ (get_connection w p s).2.locks) ∧
    (∀ (w : Nat) (ops : List Op) (c : ConnId),
      c ∈ (run w ops).locks →
      c ∉ (run w ops).destroyed ∧ c ∉ (run w ops).drained) := by
  constructor
  · intro w p s
    cases hlk : lookupKey p (workerMap w s) with
    | none =>
      left
      simp only [get_connection, hlk]
    | some c =>
      right
      refine ⟨c, ?_, ?_⟩ <;> simp only [get_connection, hlk]
      exact List.mem_cons_self _ _
  · intro w ops c h
    obtain ⟨_, _, hL, _⟩ := inv_run w ops
    exact ⟨(hL c h).2, (hL c h).1⟩

/-- Witness for C3 at a concrete run. -/
theorem C3_witness :
    0 ∉ (run 1 [Op.commit 0 5, Op.getConn 0 0]).destroyed ∧
    0 ∉ (run 1 [Op.commit 0 5, Op.getConn 0 0]).drained :=
  C3_get_connection_locking.2 1 [Op.commit 0 5, Op.getConn 0 0] 0 (by decide)

/-- Claim C4: in every reachable state, every connection present in any
worker's connection map has a routing-table entry for its peer, and the
routing table can additionally hold peers absent from every worker's map
(peers being handshaken or torn down). -/
theorem C4_routing_superset :
    (∀ (w : Nat) (ops : List Op), RoutingSuperset (run w ops)) ∧
    (∃ (w : Nat) (ops : List Op) (p : PeerId),
      (lookupKey p (run w ops).routing).isSome = true ∧
      ¬ peerInMaps p (run w ops)) := by
  constructor
  · exact fun w ops => (inv_run w ops).2.2.2
  · exact ⟨1, [Op.commit 0 5, Op.unpublish 0], 0, by decide, by decide⟩

/-- Witness for C4 at a concrete run. -/
theorem C4_witness : RoutingSuperset (run 1 [Op.commit 0 5]) :=
  C4_routing_superset.1 1 [Op.commit 0 5]

/-- Claim C5: on the loopback connection, `send_message` runs the writer
against an in-memory buffer and hands its output to the registered
handler's local fast path (`on_local_message`) on the calling worker; no
bytes reach any socket. -/
theorem C5_loopback_send {α : Type} :
    ∀ (version : Nat) (caller : Worker) (c : Conn) (tag : Tag)
      (cb : WriteCallback) (ht : HandlerTable α) (h : MsgHandler α),
      c.is_loopback = true → ht tag = some h →
      send_message version caller c tag cb
        = SendEvent.localDelivery tag caller (cb.write version) ∧
      socketBytes (send_message version caller c tag cb) = [] ∧
      deliverLocal ht tag (cb.write version)
        = some (h.on_local_message (cb.write version)) := by
  intro version caller c tag cb ht h hloop hht
  have hs : c.stream = none := Option.isNone_iff_eq_none.mp hloop
  refine ⟨?_, ?_, ?_⟩
  · unfold send_message
    rw [hs]
  · unfold send_message
    rw [hs]
    rfl
  · unfold deliverLocal
    rw [hht]
    rfl

/-- Witness for C5 at a concrete loopback connection and table. -/
theorem C5_witness :
    send_message 0 3 ⟨7, 8, none⟩ ⟨5, by decide⟩ ⟨fun _ => [1, 2]⟩
      = SendEvent.localDelivery ⟨5, by decide⟩ 3 [1, 2] ∧
    socketBytes
        (send_message 0 3 ⟨7, 8, none⟩ ⟨5, by decide⟩ ⟨fun _ => [1, 2]⟩)
      = [] ∧
    deliverLocal demoTable ⟨5, by decide⟩ [1, 2]
      = some (demoHandler.on_local_message [1, 2]) :=
  C5_loopback_send 0 3 ⟨7, 8, none⟩ ⟨5, by decide⟩ ⟨fun _ => [1, 2]⟩
    demoTable demoHandler rfl rfl

/-- Claim C6: the handler table is a fixed array with exactly 256 slots
indexed by the one-byte tag, registration on an occupied slot is refused
(at most one handler per tag), and tag H (decimal 72) is reserved for
heartbeat: upper-layer registration on it is refused. -/
theorem C6_handler_table :
    max_message_tag = 256 ∧
    Fintype.card Tag = max_message_tag ∧
    heartbeat_tag = (⟨72, by decide⟩ : Tag) ∧
    heartbeat_tag.val = Char.toNat 'H' ∧
    (∀ (ht : HandlerTable Nat) (tag : Tag) (h : MsgHandler Nat),
      (ht tag).isSome = true → registerHandler ht tag h = none) ∧
    (∀ (ht : HandlerTable Nat) (h : MsgHandler Nat),
      registerUserHandler ht heartbeat_tag h = none) := by
  refine ⟨rfl, Fintype.card_fin 256, by decide, rfl, ?_, ?_⟩
  · intro ht tag h hsome
    unfold registerHandler
    cases hht : ht tag with
    | none =>
      rw [hht] at hsome
      simp at hsome
    | some h2 => rfl
  · intro ht h
    unfold registerUserHandler
    rw [if_pos rfl]

/-- Witness for C6: registration on the occupied slot 5 is refused. -/
theorem C6_witness :
    registerHandler demoTable ⟨5, by decide⟩ demoHandler = none :=
  C6_handler_table.2.2.2.2.1 demoTable ⟨5, by decide⟩ demoHandler rfl

/-- Claim C7: run construction fails only with address-in-use or a
socket error, and every per-connection error is recovered locally:
tearing down the failing connection surfaces no error and every other
connection's entry survives in its worker's map. -/
theorem C7_run_errors :
    (∀ (cfg : RunConfig) (pu : List Nat) (ok : Bool) (e : RunError),
      runConstruct cfg pu ok = .error e →
      e = RunError.address_in_use ∨ e = RunError.tcp_socket) ∧
    (∀ (s : ClusterState) (c : ConnId) (m : List (PeerId × ConnId)),
      m ∈ s.connMaps → ∀ e ∈ m, e.2 ≠ c →
      ∃ m2 ∈ (connErrorTeardown c s).connMaps, e ∈ m2) := by
  constructor
  · intro cfg pu ok e _
    cases e
    · exact Or.inl rfl
    · exact Or.inr rfl
  · intro s c m hm e he hne
    have hk : (kill_connection c s).connMaps = s.connMaps := by
      unfold kill_connection
      split <;> rfl
    refine ⟨m.filter (fun x => x.2 != c), ?_, ?_⟩
    · unfold connErrorTeardown unpublish
      rw [hk]
      exact List.mem_map_of_mem _ hm
    · refine List.mem_filter.mpr ⟨he, ?_⟩
      simp only [bne_iff_ne]
      exact hne

/-- Witness for C7 at concrete inputs. -/
theorem C7_witness :
    (RunError.address_in_use = RunError.address_in_use ∨
     RunError.address_in_use = RunError.tcp_socket) ∧
    ∃ m2 ∈ (connErrorTeardown 1 (run 1 [Op.commit 0 5, Op.commit 1 6])).connMaps,
      ((0, 0) : PeerId × ConnId) ∈ m2 :=
  ⟨C7_run_errors.1 ⟨[], [], 4, 0⟩ [4] true RunError.address_in_use
     (by simp [runConstruct]),
   C7_run_errors.2 (run 1 [Op.commit 0 5, Op.commit 1 6]) 1 [(1, 1), (0, 0)]
     (by decide) (0, 0) (by decide) (by decide)⟩

/-- Claim C8: an address present in the attempt table suppresses every
duplicate simultaneous dial: a `join` for an in-flight address changes
nothing, N ≥ 1 calls of `join` for the same address collapse to a single
call, and a call for a fresh address launches exactly one dial. -/
theorem C8_join_dedup :
    (∀ (a : Address) (s : ClusterState), a ∈ s.attempts → join a s = s) ∧
    (∀ (a : Address) (n : Nat) (s : ClusterState),
      joinN a (n + 1) s = join a s) ∧
    (∀ (a : Address) (s : ClusterState), a ∉ s.attempts →
      (join a s).dials = s.dials + 1 ∧ a ∈ (join a s).attempts) := by
  refine ⟨fun a s h => join_suppress h, joinN_succ_eq, ?_⟩
  intro a s h
  have hj : join a s
      = { s with attempts := a :: s.attempts, dials := s.dials + 1 } := by
    unfold join
    rw [if_neg h]
  rw [hj]
  exact ⟨rfl, List.mem_cons_self _ _⟩

/-- Witness for C8 at concrete inputs. -/
theorem C8_witness :
    join 4 (run 1 [Op.join 4]) = run 1 [Op.join 4] ∧
    ((join 4 (init 1)).dials = (init 1).dials + 1 ∧
      4 ∈ (join 4 (init 1)).attempts) :=
  ⟨C8_join_dedup.1 4 (run 1 [Op.join 4]) (by decide),
   C8_join_dedup.2.2 4 (init 1) (by decide)⟩

/-- Claim C9: `run_t::join` carries the precondition of being called on
the home thread; called there it returns immediately, queueing the dial
as background work, while the connection accessors and `send_message`
succeed from every thread. -/
theorem C9_threading :
    (∀ (t : Nat) (a : Address) (n : ThreadedNode),
      (joinFromThread t a n).isSome = true ↔ t = n.homeThread) ∧
    (∀ (t : Nat) (a : Address) (n n2 : ThreadedNode),
      joinFromThread t a n = some n2 →
      n2.state = n.state ∧ n2.pendingDials = a :: n.pendingDials) ∧
    (∀ (t : Nat) (c : Conn), (getPeerIdFromThread t c).isSome = true) ∧
    (∀ (t version : Nat) (c : Conn) (tag : Tag) (cb : WriteCallback),
      (sendMessageFromThread t version c tag cb).isSome = true) := by
  refine ⟨?_, ?_, fun t c => rfl, fun t v c tag cb => rfl⟩
  · intro t a n
    unfold joinFromThread
    constructor
    · intro h
      by_contra hne
      rw [if_neg hne] at h
      simp at h
    · intro h
      rw [if_pos h]
      rfl
  · intro t a n n2 h
    unfold joinFromThread at h
    split at h
    · injection h with h2
      rw [← h2]
      exact ⟨rfl, rfl⟩
    · exact Option.noConfusion h

/-- Witness for C9 at concrete inputs. -/
theorem C9_witness :
    (⟨0, init 1, [7]⟩ : ThreadedNode).state
      = (⟨0, init 1, []⟩ : ThreadedNode).state ∧
    (⟨0, init 1, [7]⟩ : ThreadedNode).pendingDials
      = 7 :: (⟨0, init 1, []⟩ : ThreadedNode).pendingDials :=
  C9_threading.2.1 0 7 ⟨0, init 1, []⟩ ⟨0, init 1, [7]⟩ (by decide)

/-- Claim C10: at most one `run_t` per cluster at any instant: the
`variable_setter_t` used as `register_us_with_parent` on `current_run`
requires the variable to be NULL and sets it on construction, resets it
to NULL on destruction, and constructing a second run while one is live
fails the checked guarantee. -/
theorem C10_single_run :
    (∀ r : Nat, variableSetterCtor none r = some (some r)) ∧
    (∀ r r2 : Nat, variableSetterCtor (some r2) r = none) ∧
    (∀ r : Nat, variableSetterDtor (some r) r = some none) := by
  refine ⟨fun r => rfl, fun r r2 => rfl, fun r => ?_⟩
  unfold variableSetterDtor
  rw [if_pos rfl]

end Cluster
